import Mathlib

/-!
# Tool-Augmented Conversation Engine — verification development

A shallow embedding of the Tool-Augmented Conversation Engine described by the
repository's specification documents (the engine itself ships outside this
repository; only its specification is present here).  The components modelled
are: the `DirectiveParser` incremental scanner, the `PromptComposer`, the
`ToolDispatcher`, the `ConversationEngine` turn state machine, and the tool
discovery / selection rules.

Conventions of the embedding:
* assistant text is a `List Tok`, where the directive open/close markers are
  atomic tokens (the spec requires the marker strings to be unambiguous, i.e.
  never occurring in ordinary prose, so a tokenised alphabet is faithful);
* network collaborators (model endpoint, tool invocation transport) are
  oracles passed in as functions; real time (the 30-second tool timeout) is
  abstracted into the transport oracle's `timeout` outcome;
* cancellation is a schedule saying at which suspension point (model request
  or in-flight tool call) the cooperative cancel signal is observed.
-/

namespace ConvEngine

/-- Message roles of the transcript, from the spec's ChatMessage data model. -/
inductive Role where
  | system
  | user
  | assistant
  | tool
deriving DecidableEq

/-- One token of assistant text: an ordinary character, or one of the two
directive marker tokens.  The spec fixes only that the markers are unambiguous
marker strings; we model them as atomic tokens. -/
inductive Tok where
  | ch (c : Char)
  | openTk
  | closeTk
deriving DecidableEq

/-- Plain text (no markers) as a token list. -/
def strToks (s : String) : List Tok := s.data.map Tok.ch

/-- Modelled from the spec: the ChatMessage record
`(role, content, toolName?, toolCallId?)`; the transcript is an append-only
ordered sequence of these.  Timestamps are omitted (no claim concerns them);
`content` is kept as raw token text so that the transcript "keeps the raw
text". -/
structure ChatMessage where
  role : Role
  content : List Tok
  toolName : Option String
  toolCallId : Option Nat
deriving DecidableEq

/-- Result of scanning an assistant buffer: the payloads of the completed
directive blocks in close-marker order, the confirmed non-directive prose, and
whether the buffer ended inside an unclosed block. -/
structure ScanOut where
  dirs : List (List Char)
  prose : List Char
  unclosed : Bool
deriving DecidableEq

/-- Modelled from the spec: the DirectiveParser scanner (§4.2).  The state is
`none` outside any block and `some acc` inside a block whose payload so far is
`acc`.  A span becomes a directive only when its close marker arrives; text
after an open marker is held back (neither directive nor prose); a buffer that
ends inside a block is flagged `unclosed` and the held-back span is not
yielded.  A stray close marker outside a block is ignored (the spec's
unambiguity requirement makes it unreachable for well-behaved models). -/
def scanA : Option (List Char) → List Tok → ScanOut
  | none, [] => ⟨[], [], false⟩
  | some _, [] => ⟨[], [], true⟩
  | none, .ch c :: r =>
      let s := scanA none r
      ⟨s.dirs, c :: s.prose, s.unclosed⟩
  | none, .openTk :: r => scanA (some []) r
  | none, .closeTk :: r => scanA none r
  | some a, .ch c :: r => scanA (some (a ++ [c])) r
  | some a, .openTk :: r => scanA (some a) r
  | some a, .closeTk :: r =>
      let s := scanA none r
      ⟨a :: s.dirs, s.prose, s.unclosed⟩

/-- Scan a whole buffer from the outside state. -/
def scanBuffer (buf : List Tok) : ScanOut := scanA none buf

/-- The completed directive payloads contained in a message's text. -/
def msgDirs (m : ChatMessage) : List (List Char) := (scanBuffer m.content).dirs

/-- Structured content of a directive: capability name plus argument text. -/
structure DirectiveContent where
  name : String
  arguments : String
deriving DecidableEq

/-- Modelled from the spec: the directive payload is structured data (name +
argument map) whose exact syntax is an implementation parameter; we fix the
representative concrete syntax `name:arguments` with a nonempty name before
the first colon.  A payload that does not have this form is
`InvalidDirectivePayload`. -/
def decodePayload (p : List Char) : Option DirectiveContent :=
  let nm := p.takeWhile (fun c => c ≠ ':')
  match p.dropWhile (fun c => c ≠ ':') with
  | [] => none
  | _ :: args => if nm.isEmpty then none else some ⟨String.mk nm, String.mk args⟩

/-- Modelled from the spec: ToolCapability `(name, description,
parameterSchema)`.  The schema is kept as opaque text. -/
structure ToolCapability where
  name : String
  description : String
  parameters : String
deriving DecidableEq

/-- Last known status of a tool server in the catalog snapshot. -/
inductive ServerStatus where
  | deployed
  | unreachable
deriving DecidableEq

/-- Modelled from the spec: ToolServer `(id, name, baseEndpoint, status,
capabilities)`. -/
structure ToolServer where
  id : Nat
  name : String
  baseEndpoint : String
  status : ServerStatus
  capabilities : List ToolCapability
deriving DecidableEq

/-- Modelled from the spec: the ToolCatalog snapshot owning the discovered
tool servers. -/
structure ToolCatalog where
  servers : List ToolServer
deriving DecidableEq

/-- Resolve a directive name to the first server owning a capability of that
name. -/
def ToolCatalog.resolve (cat : ToolCatalog) (nm : String) : Option ToolServer :=
  cat.servers.find? (fun s => s.capabilities.any (fun c => decide (c.name = nm)))

/-- Modelled from the spec: ToolCallDirective `(id, name, arguments)`, the id
being engine-generated and monotonic per turn. -/
structure ToolCallDirective where
  id : Nat
  name : String
  arguments : String
deriving DecidableEq

/-- Modelled from the spec: ToolCallResult `(directiveId, ok, payload)`. -/
structure ToolCallResult where
  directiveId : Nat
  ok : Bool
  payload : String
deriving DecidableEq

/-- Outcome of one remote tool invocation as seen through the tool invocation
transport collaborator.  The fixed per-call timeout (30 seconds in the
reference behavior) is abstracted into the `timeout` outcome. -/
inductive TransportResult where
  | success (payload : String)
  | timeout
  | serverError (msg : String)
deriving DecidableEq

/-- The fixed per-tool-call timeout of the reference behavior, in seconds. -/
def toolCallTimeoutSeconds : Nat := 30

/-- A dispatch outcome: the normalized result, plus whether an outbound
network call was made (the spec requires certain failures to short-circuit
with no call). -/
structure DispatchOut where
  result : ToolCallResult
  networkCalled : Bool
deriving DecidableEq

/-- Modelled from the spec: the ToolDispatcher (§4.3).  (1) resolve the name —
no match yields `ToolNotFound` with no network call; (2) an `unreachable`
server short-circuits with no network call; (3) otherwise the transport is
invoked once (never retried) and (4) timeout/server failures are normalized
into error results; (5) success returns the raw payload unmodified. -/
def dispatchDirective (cat : ToolCatalog)
    (transport : ToolServer → ToolCallDirective → TransportResult)
    (d : ToolCallDirective) : DispatchOut :=
  match cat.resolve d.name with
  | none => ⟨⟨d.id, false, "ToolNotFound: " ++ d.name⟩, false⟩
  | some s =>
      if s.status = ServerStatus.unreachable then
        ⟨⟨d.id, false, "ToolUnreachable: " ++ s.name⟩, false⟩
      else
        match transport s d with
        | .success p => ⟨⟨d.id, true, p⟩, true⟩
        | .timeout => ⟨⟨d.id, false, "ToolTimeout"⟩, true⟩
        | .serverError m => ⟨⟨d.id, false, "ToolServerError: " ++ m⟩, true⟩

/-- One response of the model streaming endpoint: either a complete stream of
tokens, or a transport failure after a partial stream. -/
inductive ModelResponse where
  | stream (toks : List Tok)
  | interrupted (toks : List Tok)
deriving DecidableEq

/-- The tokens carried by a response, complete or not. -/
def respToks : ModelResponse → List Tok
  | .stream ts => ts
  | .interrupted ts => ts

/-- Modelled from the spec: the external collaborators of one turn — the model
streaming endpoint (a function of the submitted transcript) and the tool
invocation transport, plus the read-only ToolCatalog snapshot taken at turn
creation. -/
structure EngineEnv where
  model : List ChatMessage → ModelResponse
  transport : ToolServer → ToolCallDirective → TransportResult
  catalog : ToolCatalog

/-- When the user's cooperative cancellation signal arrives, if ever: during
the `iter`-th model request (with `cut` tokens already streamed), or during
the in-flight tool call for directive index `dirIdx` of the `iter`-th
assistant message. -/
inductive CancelSig where
  | never
  | duringModel (iter : Nat) (cut : Nat)
  | duringTool (iter : Nat) (dirIdx : Nat)
deriving DecidableEq

/-- Does the cancel signal abort the `iter`-th model request?  If so, how many
tokens had streamed. -/
def cancelsModel : CancelSig → Nat → Option Nat
  | .duringModel i n, iter => if i = iter then some n else none
  | _, _ => none

/-- Does the cancel signal abort the tool call for directive `idx` of
iteration `iter`? -/
def cancelsTool : CancelSig → Nat → Nat → Bool
  | .duringTool i k, iter, idx => decide (i = iter) && decide (k = idx)
  | _, _, _ => false

/-- The `tool` message answering the directive with id `dirId` and raw payload
`p`: an undecodable payload is reported back as an `InvalidDirectivePayload`
tool error result (the model is expected to self-correct); otherwise the
dispatcher's normalized result is injected. -/
def answerMsg (env : EngineEnv) (dirId : Nat) (p : List Char) : ChatMessage :=
  match decodePayload p with
  | none => ⟨Role.tool, strToks "InvalidDirectivePayload", none, some dirId⟩
  | some dc =>
      let out := dispatchDirective env.catalog env.transport ⟨dirId, dc.name, dc.arguments⟩
      ⟨Role.tool, strToks out.result.payload, some dc.name, some dirId⟩

/-- The tool messages answering a list of directive payloads, with ids
assigned monotonically from `n`. -/
def answerList (env : EngineEnv) : Nat → List (List Char) → List ChatMessage
  | _, [] => []
  | n, p :: rest => answerMsg env n p :: answerList env (n + 1) rest

/-- How the sequential dispatch phase of one assistant message ends: all
directives dispatched (`ok`, with the new iteration count), the iteration
limit was hit before some directive (`limitHit`), or the cancel signal aborted
some in-flight call (`cancelledAt`).  In every case `toolMsgs` are the tool
messages appended, in close-marker order. -/
inductive DispatchPhaseEnd where
  | ok (toolMsgs : List ChatMessage) (newCount : Nat)
  | limitHit (toolMsgs : List ChatMessage)
  | cancelledAt (toolMsgs : List ChatMessage)

/-- Modelled from the spec: the Dispatching phase (§4.4).  The confirmed
directives of one assistant message are executed strictly sequentially in
detection order.  For each directive: if dispatching it would push the
iteration counter past `maxIters`, the turn aborts before the call (Scenario
D: no dispatch past the bound); if the cancel signal arrives during the call,
the call is aborted and no tool message is appended for it (Scenario E);
otherwise the call runs, its tool message is appended, and the counter is
incremented. -/
def runDispatches (env : EngineEnv) (cancel : CancelSig) (iter maxIters : Nat) :
    Nat → Nat → Nat → List (List Char) → DispatchPhaseEnd
  | count, _, _, [] => .ok [] count
  | count, nextId, idx, p :: rest =>
      if maxIters < count + 1 then .limitHit []
      else if cancelsTool cancel iter idx then .cancelledAt []
      else
        match runDispatches env cancel iter maxIters (count + 1) (nextId + 1) (idx + 1) rest with
        | .ok ms c => .ok (answerMsg env nextId p :: ms) c
        | .limitHit ms => .limitHit (answerMsg env nextId p :: ms)
        | .cancelledAt ms => .cancelledAt (answerMsg env nextId p :: ms)

/-- Terminal outcomes of a conversation turn, as surfaced to the caller. -/
inductive TurnOutcome where
  | Completed
  | Cancelled
  | IterationLimitExceeded
  | StreamInterrupted
  | MalformedDirective
deriving DecidableEq

/-- Everything observable about one processed turn: the terminal outcome, the
messages appended to the transcript (in order), the non-directive text
surfaced live to the caller, how many model requests were opened, how many
tool calls were dispatched, and the transcript carried by each model
request. -/
structure TurnResult where
  outcome : TurnOutcome
  appended : List ChatMessage
  surfaced : List Char
  modelCalls : Nat
  dispatches : Nat
  requests : List (List ChatMessage)
deriving DecidableEq

/-- The synthetic assistant message appended when the iteration limit aborts
the turn. -/
def limitMsg : ChatMessage :=
  ⟨Role.assistant, strToks "Tool iteration limit reached.", none, none⟩

/-- A fresh user message. -/
def mkUserMsg (u : String) : ChatMessage := ⟨Role.user, strToks u, none, none⟩

/-- The fully-appended assistant message holding a completed stream. -/
def mkAsst (ts : List Tok) : ChatMessage := ⟨Role.assistant, ts, none, none⟩

/-- Modelled from the spec: the ConversationEngine request/dispatch/resubmit
loop (§4.4), written with structural fuel (the iteration bound makes the loop
terminating; `runTurn` supplies adequate fuel).  Each round: a model request
is opened (a suspension point where cancellation is observed and where a
transport failure surfaces `StreamInterrupted` with no automatic retry); a
completed stream whose buffer ends inside an unclosed block is the turn-level
`MalformedDirective` error with the raw text kept in the transcript; a stream
with no directive completes the turn; otherwise the fully-appended assistant
message is followed by the sequential dispatch phase and, when that phase
dispatched every directive within the bound, the grown transcript is
resubmitted. -/
def runLoopF (env : EngineEnv) (cancel : CancelSig) (maxIters : Nat) :
    Nat → List ChatMessage → Nat → Nat → Nat → TurnResult
  | 0, _, _, _, _ => ⟨TurnOutcome.Cancelled, [], [], 0, 0, []⟩
  | fuel + 1, t, count, nextId, iter =>
      match cancelsModel cancel iter with
      | some n =>
          ⟨TurnOutcome.Cancelled, [], (scanBuffer ((respToks (env.model t)).take n)).prose,
            1, 0, [t]⟩
      | none =>
          match env.model t with
          | .interrupted ts =>
              ⟨TurnOutcome.StreamInterrupted, [], (scanBuffer ts).prose, 1, 0, [t]⟩
          | .stream ts =>
              let sc := scanBuffer ts
              let amsg : ChatMessage := mkAsst ts
              if sc.unclosed then
                ⟨TurnOutcome.MalformedDirective, [amsg], sc.prose, 1, 0, [t]⟩
              else if sc.dirs.isEmpty then
                ⟨TurnOutcome.Completed, [amsg], sc.prose, 1, 0, [t]⟩
              else
                match runDispatches env cancel iter maxIters count nextId 0 sc.dirs with
                | .cancelledAt ms =>
                    ⟨TurnOutcome.Cancelled, amsg :: ms, sc.prose, 1, ms.length, [t]⟩
                | .limitHit ms =>
                    ⟨TurnOutcome.IterationLimitExceeded, amsg :: (ms ++ [limitMsg]),
                      sc.prose, 1, ms.length, [t]⟩
                | .ok ms newCount =>
                    let r := runLoopF env cancel maxIters fuel (t ++ amsg :: ms) newCount
                      (nextId + ms.length) (iter + 1)
                    ⟨r.outcome, amsg :: (ms ++ r.appended), sc.prose ++ r.surfaced,
                      1 + r.modelCalls, ms.length + r.dispatches, t :: r.requests⟩

/-- Modelled from the spec: one ConversationTurn — triggered by appending one
user message to the session transcript, processed by the loop until a
terminal state.  `maxIters + 2` fuel always suffices: every resubmission
strictly increases the iteration counter, which the loop keeps at most
`maxIters`. -/
def runTurn (env : EngineEnv) (cancel : CancelSig) (maxIters : Nat)
    (base : List ChatMessage) (u : String) : TurnResult :=
  runLoopF env cancel maxIters (maxIters + 2) (base ++ [mkUserMsg u]) 0 0 0

/-- Serialized descriptor of one enabled capability, as it appears in the
composed system prompt (the exact tag format is an implementation parameter in
the spec; this is the representative concrete choice). -/
def capabilityDescriptor (c : ToolCapability) : String :=
  "<tool>name: " ++ c.name ++ "; description: " ++ c.description ++
    "; parameters: " ++ c.parameters ++ "</tool>"

/-- The fixed-format instruction block teaching the model the directive
syntax, followed by one serialized descriptor per enabled capability. -/
def protocolInstructions (caps : List ToolCapability) : String :=
  "\n\n---\n\nYou have access to the following tools. To call a tool, respond with " ++
    "a tool call block in exactly this format: <tool_call>name:arguments</tool_call>\n\n" ++
    "Available tools:\n\n" ++
    String.join (caps.map (fun c => capabilityDescriptor c ++ "\n")) ++
    "\nWhen you receive a tool result, it will be provided as " ++
    "<tool_result>name:result</tool_result>. " ++
    "You may call multiple tools in sequence. " ++
    "After receiving tool results, continue your response to the user."

/-- Modelled from the spec: the PromptComposer (§4.1) — deterministic; with
zero enabled capabilities the instruction block and capability list are
omitted entirely and the base prompt is returned unchanged. -/
def composePrompt (base : String) (caps : List ToolCapability) : String :=
  match caps with
  | [] => base
  | _ :: _ => base ++ protocolInstructions caps

/-- Modelled from the spec: one tool server record as returned by the
tool discovery collaborator (`/tool/discover`): deployment id, name, url,
raw status string, and capability list. -/
structure ToolServerInfo where
  deploymentId : Nat
  name : String
  url : String
  status : String
  capabilities : List ToolCapability
deriving DecidableEq

/-- Modelled from the spec: tool discovery step 3 — only servers whose
discovery status equals `DEPLOYED` are shown (offered for enabling). -/
def offeredServers (resp : List ToolServerInfo) : List ToolServerInfo :=
  resp.filter (fun s => decide (s.status = "DEPLOYED"))

/-- Modelled from the spec: the enabled set the user can build is a selection
among the offered (shown) servers. -/
def enabledServers (choice : ToolServerInfo → Bool) (resp : List ToolServerInfo) :
    List ToolServerInfo :=
  (offeredServers resp).filter choice

/-- Modelled from the spec: remembered tool selections (§5.3) — stored
deployment ids are pre-selected on a new chat, and a remembered id whose
server is no longer discovered as deployed is silently skipped (no error, no
report). -/
def preselectedServers (remembered : List Nat) (resp : List ToolServerInfo) :
    List ToolServerInfo :=
  (offeredServers resp).filter (fun s => decide (s.deploymentId ∈ remembered))

/-- Bool rendering of the spec's transcript invariant (its §8 first testable
property): walking the appended messages with the turn's monotonic directive
id counter `n`, every assistant message containing a directive must be
immediately followed by a `tool` message whose `toolCallId` is the id assigned
to that assistant message's first directive. -/
def tcInvariant : Nat → List ChatMessage → Bool
  | _, [] => true
  | n, m :: rest =>
      (if m.role = Role.assistant ∧ msgDirs m ≠ [] then
        match rest with
        | [] => false
        | m' :: _ => decide (m'.role = Role.tool) && decide (m'.toolCallId = some n)
      else true)
      && tcInvariant (n + (msgDirs m).length) rest

/-- Length of the maximal run of `tool`-role messages at the head of a
list. -/
def toolRun : List ChatMessage → Nat
  | [] => 0
  | m :: rest => if m.role = Role.tool then toolRun rest + 1 else 0

/-- Bool rendering of the claim that every assistant message containing `N`
directives is followed by exactly `N` appended tool messages. -/
def dirCountsMatch : List ChatMessage → Bool
  | [] => true
  | m :: rest =>
      (if m.role = Role.assistant then decide (toolRun rest = (msgDirs m).length) else true)
      && dirCountsMatch rest

/-- The segment structure of a fully processed (Completed) turn: the appended
messages decompose into rounds, each an assistant message followed by exactly
the tool messages answering its directives in close-marker order with
consecutive engine-generated ids, ending with a final assistant message that
contains no directive. -/
inductive SegStruct (env : EngineEnv) : Nat → List ChatMessage → Prop
  | last (n : Nat) (ts : List Tok) :
      (scanBuffer ts).unclosed = false →
      (scanBuffer ts).dirs = [] →
      SegStruct env n [⟨Role.assistant, ts, none, none⟩]
  | step (n : Nat) (ts : List Tok) (rest : List ChatMessage) :
      (scanBuffer ts).unclosed = false →
      (scanBuffer ts).dirs ≠ [] →
      SegStruct env (n + (scanBuffer ts).dirs.length) rest →
      SegStruct env n
        (⟨Role.assistant, ts, none, none⟩ ::
          (answerList env n (scanBuffer ts).dirs ++ rest))

/-- A concrete assistant stream containing exactly one well-formed directive
calling the `ping` capability. -/
def dirStream : List Tok := Tok.openTk :: (strToks "ping:q" ++ [Tok.closeTk])

/-- A concrete directive-free assistant stream. -/
def plainStream : List Tok := strToks "done"

/-- A concrete capability used by the scenario environments. -/
def pingCapability : ToolCapability := ⟨"ping", "send a ping", "q"⟩

/-- A concrete deployed tool server owning the `ping` capability. -/
def pingServer : ToolServer :=
  ⟨7, "pinger", "http,srv", ServerStatus.deployed, [pingCapability]⟩

/-- A concrete one-server catalog offering the `ping` capability, deployed. -/
def pingCatalog : ToolCatalog := ⟨[pingServer]⟩

/-- A concrete environment whose model emits the `ping` directive on every
response — the always-directive model of the spec's Scenario D. -/
def envD : EngineEnv :=
  ⟨fun _ => ModelResponse.stream dirStream,
   fun _ _ => TransportResult.success "pong",
   pingCatalog⟩

/-- A concrete environment whose model emits the `ping` directive once and
then, after seeing a tool result, answers with plain text — the spec's
Scenario B shape. -/
def envC : EngineEnv :=
  ⟨fun t => if t.length ≤ 1 then ModelResponse.stream dirStream
            else ModelResponse.stream plainStream,
   fun _ _ => TransportResult.success "pong",
   pingCatalog⟩

/-- A concrete environment whose model stream always fails with a transport
error after streaming partial text. -/
def envI : EngineEnv :=
  ⟨fun _ => ModelResponse.interrupted (strToks "oops"),
   fun _ _ => TransportResult.success "x",
   pingCatalog⟩

/-- A concrete buffer whose open marker is never closed before stream end. -/
def malformedStream : List Tok := strToks "a" ++ Tok.openTk :: strToks "b"

/-- A concrete environment whose model emits the unterminated buffer. -/
def envM : EngineEnv :=
  ⟨fun _ => ModelResponse.stream malformedStream,
   fun _ _ => TransportResult.success "x",
   pingCatalog⟩

/-- A concrete tool server whose last known status is `unreachable`. -/
def downServer : ToolServer :=
  ⟨8, "downsrv", "http,down", ServerStatus.unreachable, [pingCapability]⟩

/-- A concrete catalog whose only `ping`-capable server is unreachable. -/
def downCatalog : ToolCatalog := ⟨[downServer]⟩

/-- A concrete environment like `envC` but whose tool transport always times
out at the fixed per-call limit. -/
def envT : EngineEnv :=
  ⟨fun t => if t.length ≤ 1 then ModelResponse.stream dirStream
            else ModelResponse.stream plainStream,
   fun _ _ => TransportResult.timeout,
   pingCatalog⟩

/-- A concrete deployed server record as returned by tool discovery. -/
def srvGood : ToolServerInfo := ⟨1, "websearch", "http,ws", "DEPLOYED", [pingCapability]⟩

/-- A concrete discovered server record whose status is not `DEPLOYED`. -/
def srvBad : ToolServerInfo := ⟨2, "oldtool", "http,old", "STOPPED", [pingCapability]⟩

/-- A concrete discovery response holding one deployed and one stopped
server. -/
def discResp : List ToolServerInfo := [srvGood, srvBad]

/-! ## Parser lemmas -/

theorem scanA_append (xs : List Tok) : ∀ (st : Option (List Char)) (ys : List Tok),
    (scanA st xs).unclosed = false →
    scanA st (xs ++ ys) =
      ⟨(scanA st xs).dirs ++ (scanA none ys).dirs,
       (scanA st xs).prose ++ (scanA none ys).prose,
       (scanA none ys).unclosed⟩ := by
  induction xs with
  | nil =>
      intro st ys h
      cases st with
      | none => simp [scanA]
      | some a => simp [scanA] at h
  | cons tk rest ih =>
      intro st ys h
      cases st with
      | none =>
          cases tk with
          | ch c =>
              simp only [scanA, List.cons_append, List.append_eq] at h ⊢
              rw [ih none ys h]
          | openTk =>
              simp only [scanA, List.cons_append] at h ⊢
              exact ih (some []) ys h
          | closeTk =>
              simp only [scanA, List.cons_append] at h ⊢
              exact ih none ys h
      | some a =>
          cases tk with
          | ch c =>
              simp only [scanA, List.cons_append] at h ⊢
              exact ih (some (a ++ [c])) ys h
          | openTk =>
              simp only [scanA, List.cons_append] at h ⊢
              exact ih (some a) ys h
          | closeTk =>
              simp only [scanA, List.cons_append, List.append_eq] at h ⊢
              rw [ih none ys h]

theorem scanA_noClose (xs : List Tok) : ∀ (a : List Char), Tok.closeTk ∉ xs →
    scanA (some a) xs = ⟨[], [], true⟩ := by
  induction xs with
  | nil => intro a _; rfl
  | cons tk rest ih =>
      intro a h
      have hrest : Tok.closeTk ∉ rest := fun hm => h (List.mem_cons_of_mem _ hm)
      cases tk with
      | ch c => simpa [scanA] using ih (a ++ [c]) hrest
      | openTk => simpa [scanA] using ih a hrest
      | closeTk => exact absurd (List.mem_cons_self _ _) h

theorem scanA_chs (l : List Char) : scanA none (l.map Tok.ch) = ⟨[], l, false⟩ := by
  induction l with
  | nil => rfl
  | cons c rest ih => simp [scanA, ih]

theorem scanBuffer_strToks (s : String) : scanBuffer (strToks s) = ⟨[], s.data, false⟩ :=
  scanA_chs s.data

/-! ## Answer-message lemmas -/

theorem answerMsg_role (env : EngineEnv) (n : Nat) (p : List Char) :
    (answerMsg env n p).role = Role.tool := by
  unfold answerMsg
  cases decodePayload p <;> rfl

theorem answerMsg_toolCallId (env : EngineEnv) (n : Nat) (p : List Char) :
    (answerMsg env n p).toolCallId = some n := by
  unfold answerMsg
  cases decodePayload p <;> rfl

theorem msgDirs_answerMsg (env : EngineEnv) (n : Nat) (p : List Char) :
    msgDirs (answerMsg env n p) = [] := by
  unfold answerMsg
  cases decodePayload p <;> simp [msgDirs, scanBuffer_strToks]

theorem answerList_length (env : EngineEnv) (ps : List (List Char)) :
    ∀ n, (answerList env n ps).length = ps.length := by
  induction ps with
  | nil => intro n; rfl
  | cons p rest ih => intro n; simp [answerList, ih]

theorem answerList_mem_tool (env : EngineEnv) (ps : List (List Char)) :
    ∀ n m, m ∈ answerList env n ps → m.role = Role.tool ∧ msgDirs m = [] := by
  induction ps with
  | nil => intro n m h; simp [answerList] at h
  | cons p rest ih =>
      intro n m h
      rcases List.mem_cons.mp h with h1 | h2
      · subst h1; exact ⟨answerMsg_role env n p, msgDirs_answerMsg env n p⟩
      · exact ih (n + 1) m h2

/-! ## Dispatch-phase lemmas -/

theorem runDispatches_never_ok (env : EngineEnv) (iter maxIters : Nat)
    (ps : List (List Char)) : ∀ count nextId idx, count + ps.length ≤ maxIters →
    runDispatches env CancelSig.never iter maxIters count nextId idx ps =
      DispatchPhaseEnd.ok (answerList env nextId ps) (count + ps.length) := by
  induction ps with
  | nil => intro count nextId idx _; simp [runDispatches, answerList]
  | cons p rest ih =>
      intro count nextId idx h
      have hlt : ¬ maxIters < count + 1 := by
        simp only [List.length_cons] at h; omega
      have hrest : (count + 1) + rest.length ≤ maxIters := by
        simp only [List.length_cons] at h; omega
      have hct : cancelsTool CancelSig.never iter idx = false := rfl
      have harith : count + 1 + rest.length = count + (p :: rest).length := by
        simp only [List.length_cons]; omega
      simp [runDispatches, if_neg hlt, hct, ih (count + 1) (nextId + 1) (idx + 1) hrest,
        answerList, harith]

theorem runDispatches_ok_eq (env : EngineEnv) (cancel : CancelSig) (iter maxIters : Nat)
    (ps : List (List Char)) : ∀ count nextId idx ms c,
    runDispatches env cancel iter maxIters count nextId idx ps =
      DispatchPhaseEnd.ok ms c →
    ms = answerList env nextId ps ∧ c = count + ps.length ∧ (ps ≠ [] → c ≤ maxIters) := by
  induction ps with
  | nil =>
      intro count nextId idx ms c h
      simp only [runDispatches] at h
      cases h
      exact ⟨rfl, by simp, fun hne => absurd rfl hne⟩
  | cons p rest ih =>
      intro count nextId idx ms c h
      simp only [runDispatches] at h
      by_cases hlt : maxIters < count + 1
      · rw [if_pos hlt] at h; cases h
      · rw [if_neg hlt] at h
        by_cases hct : cancelsTool cancel iter idx
        · rw [if_pos hct] at h; cases h
        · rw [if_neg hct] at h
          cases hrd : runDispatches env cancel iter maxIters (count + 1) (nextId + 1)
              (idx + 1) rest with
          | ok ms' c' =>
              rw [hrd] at h
              cases h
              obtain ⟨h1, h2, h3⟩ := ih (count + 1) (nextId + 1) (idx + 1) ms' c hrd
              subst h1
              refine ⟨rfl, by simp only [List.length_cons]; omega, fun _ => ?_⟩
              rcases rest with _ | ⟨q, qs⟩
              · simp only [List.length_nil] at h2; omega
              · exact h3 (by simp)
          | limitHit ms' => rw [hrd] at h; cases h
          | cancelledAt ms' => rw [hrd] at h; cases h

theorem runDispatches_limitHit_le (env : EngineEnv) (cancel : CancelSig)
    (iter maxIters : Nat) (ps : List (List Char)) : ∀ count nextId idx ms,
    runDispatches env cancel iter maxIters count nextId idx ps =
      DispatchPhaseEnd.limitHit ms →
    ms = [] ∨ count + ms.length ≤ maxIters := by
  induction ps with
  | nil => intro count nextId idx ms h; simp [runDispatches] at h
  | cons p rest ih =>
      intro count nextId idx ms h
      simp only [runDispatches] at h
      by_cases hlt : maxIters < count + 1
      · rw [if_pos hlt] at h; cases h; exact Or.inl rfl
      · rw [if_neg hlt] at h
        by_cases hct : cancelsTool cancel iter idx
        · rw [if_pos hct] at h; cases h
        · rw [if_neg hct] at h
          cases hrd : runDispatches env cancel iter maxIters (count + 1) (nextId + 1)
              (idx + 1) rest with
          | ok ms' c' => rw [hrd] at h; cases h
          | limitHit ms' =>
              rw [hrd] at h; cases h
              rcases ih (count + 1) (nextId + 1) (idx + 1) ms' hrd with h0 | hle
              · subst h0; right; simp only [List.length_cons, List.length_nil]; omega
              · right; simp only [List.length_cons]; omega
          | cancelledAt ms' => rw [hrd] at h; cases h

theorem runDispatches_cancelledAt_le (env : EngineEnv) (cancel : CancelSig)
    (iter maxIters : Nat) (ps : List (List Char)) : ∀ count nextId idx ms,
    runDispatches env cancel iter maxIters count nextId idx ps =
      DispatchPhaseEnd.cancelledAt ms →
    ms = [] ∨ count + ms.length ≤ maxIters := by
  induction ps with
  | nil => intro count nextId idx ms h; simp [runDispatches] at h
  | cons p rest ih =>
      intro count nextId idx ms h
      simp only [runDispatches] at h
      by_cases hlt : maxIters < count + 1
      · rw [if_pos hlt] at h; cases h
      · rw [if_neg hlt] at h
        by_cases hct : cancelsTool cancel iter idx
        · rw [if_pos hct] at h; cases h; exact Or.inl rfl
        · rw [if_neg hct] at h
          cases hrd : runDispatches env cancel iter maxIters (count + 1) (nextId + 1)
              (idx + 1) rest with
          | ok ms' c' => rw [hrd] at h; cases h
          | limitHit ms' => rw [hrd] at h; cases h
          | cancelledAt ms' =>
              rw [hrd] at h; cases h
              rcases ih (count + 1) (nextId + 1) (idx + 1) ms' hrd with h0 | hle
              · subst h0; right; simp only [List.length_cons, List.length_nil]; omega
              · right; simp only [List.length_cons]; omega

theorem runDispatches_duringTool (env : EngineEnv) (iter maxIters j : Nat)
    (ps : List (List Char)) : ∀ count nextId idx, idx ≤ j → j - idx < ps.length →
    count + (j - idx) + 1 ≤ maxIters →
    runDispatches env (CancelSig.duringTool iter j) iter maxIters count nextId idx ps =
      DispatchPhaseEnd.cancelledAt (answerList env nextId (ps.take (j - idx))) := by
  induction ps with
  | nil => intro count nextId idx _ h _; simp at h
  | cons p rest ih =>
      intro count nextId idx hij hlen hcnt
      have hlt : ¬ maxIters < count + 1 := by omega
      by_cases hj : j = idx
      · subst hj
        have hct : cancelsTool (CancelSig.duringTool iter j) iter j = true := by
          simp [cancelsTool]
        simp [runDispatches, if_neg hlt, hct, answerList]
      · have hct : cancelsTool (CancelSig.duringTool iter j) iter idx = false := by
          simp only [cancelsTool, Bool.and_eq_false_iff, decide_eq_false_iff_not]
          right
          omega
        have hij' : idx + 1 ≤ j := by omega
        have hlen' : j - (idx + 1) < rest.length := by
          simp only [List.length_cons] at hlen; omega
        have hcnt' : (count + 1) + (j - (idx + 1)) + 1 ≤ maxIters := by omega
        have htk : j - idx = (j - (idx + 1)) + 1 := by omega
        simp [runDispatches, if_neg hlt, hct,
          ih (count + 1) (nextId + 1) (idx + 1) hij' hlen' hcnt', htk, answerList]

/-! ## Engine one-step branch lemmas -/

theorem runLoopF_cancelModel (env : EngineEnv) (cancel : CancelSig)
    (maxIters fuel : Nat) (t : List ChatMessage) (count nextId iter n : Nat)
    (hc : cancelsModel cancel iter = some n) :
    runLoopF env cancel maxIters (fuel + 1) t count nextId iter =
      ⟨TurnOutcome.Cancelled, [], (scanBuffer ((respToks (env.model t)).take n)).prose,
        1, 0, [t]⟩ := by
  simp only [runLoopF, hc]

theorem runLoopF_interrupted (env : EngineEnv) (cancel : CancelSig)
    (maxIters fuel : Nat) (t : List ChatMessage) (count nextId iter : Nat) (ts : List Tok)
    (hc : cancelsModel cancel iter = none) (hm : env.model t = ModelResponse.interrupted ts) :
    runLoopF env cancel maxIters (fuel + 1) t count nextId iter =
      ⟨TurnOutcome.StreamInterrupted, [], (scanBuffer ts).prose, 1, 0, [t]⟩ := by
  simp only [runLoopF, hc, hm]

theorem runLoopF_malformed (env : EngineEnv) (cancel : CancelSig)
    (maxIters fuel : Nat) (t : List ChatMessage) (count nextId iter : Nat) (ts : List Tok)
    (hc : cancelsModel cancel iter = none) (hm : env.model t = ModelResponse.stream ts)
    (hu : (scanBuffer ts).unclosed = true) :
    runLoopF env cancel maxIters (fuel + 1) t count nextId iter =
      ⟨TurnOutcome.MalformedDirective, [mkAsst ts], (scanBuffer ts).prose, 1, 0, [t]⟩ := by
  simp only [runLoopF, hc, hm, hu, if_true]

theorem runLoopF_plain (env : EngineEnv) (cancel : CancelSig)
    (maxIters fuel : Nat) (t : List ChatMessage) (count nextId iter : Nat) (ts : List Tok)
    (hc : cancelsModel cancel iter = none) (hm : env.model t = ModelResponse.stream ts)
    (hu : (scanBuffer ts).unclosed = false) (hd : (scanBuffer ts).dirs = []) :
    runLoopF env cancel maxIters (fuel + 1) t count nextId iter =
      ⟨TurnOutcome.Completed, [mkAsst ts], (scanBuffer ts).prose, 1, 0, [t]⟩ := by
  simp only [runLoopF, hc, hm, hu, hd, Bool.false_eq_true, if_false, List.isEmpty_nil, if_true]

theorem dirs_isEmpty_false {ts : List Tok} (hd : (scanBuffer ts).dirs ≠ []) :
    (scanBuffer ts).dirs.isEmpty = false := by
  cases hdm : (scanBuffer ts).dirs with
  | nil => exact absurd hdm hd
  | cons p ps => rfl

theorem runLoopF_dispatch_cancelled (env : EngineEnv) (cancel : CancelSig)
    (maxIters fuel : Nat) (t : List ChatMessage) (count nextId iter : Nat) (ts : List Tok)
    (ms : List ChatMessage)
    (hc : cancelsModel cancel iter = none) (hm : env.model t = ModelResponse.stream ts)
    (hu : (scanBuffer ts).unclosed = false) (hd : (scanBuffer ts).dirs ≠ [])
    (hrd : runDispatches env cancel iter maxIters count nextId 0 (scanBuffer ts).dirs =
      DispatchPhaseEnd.cancelledAt ms) :
    runLoopF env cancel maxIters (fuel + 1) t count nextId iter =
      ⟨TurnOutcome.Cancelled, mkAsst ts :: ms, (scanBuffer ts).prose, 1, ms.length, [t]⟩ := by
  simp only [runLoopF, hc, hm, hu, Bool.false_eq_true, if_false, dirs_isEmpty_false hd, hrd]

theorem runLoopF_dispatch_limit (env : EngineEnv) (cancel : CancelSig)
    (maxIters fuel : Nat) (t : List ChatMessage) (count nextId iter : Nat) (ts : List Tok)
    (ms : List ChatMessage)
    (hc : cancelsModel cancel iter = none) (hm : env.model t = ModelResponse.stream ts)
    (hu : (scanBuffer ts).unclosed = false) (hd : (scanBuffer ts).dirs ≠ [])
    (hrd : runDispatches env cancel iter maxIters count nextId 0 (scanBuffer ts).dirs =
      DispatchPhaseEnd.limitHit ms) :
    runLoopF env cancel maxIters (fuel + 1) t count nextId iter =
      ⟨TurnOutcome.IterationLimitExceeded, mkAsst ts :: (ms ++ [limitMsg]),
        (scanBuffer ts).prose, 1, ms.length, [t]⟩ := by
  simp only [runLoopF, hc, hm, hu, Bool.false_eq_true, if_false, dirs_isEmpty_false hd, hrd]

theorem runLoopF_dispatch_ok (env : EngineEnv) (cancel : CancelSig)
    (maxIters fuel : Nat) (t : List ChatMessage) (count nextId iter : Nat) (ts : List Tok)
    (ms : List ChatMessage) (newCount : Nat)
    (hc : cancelsModel cancel iter = none) (hm : env.model t = ModelResponse.stream ts)
    (hu : (scanBuffer ts).unclosed = false) (hd : (scanBuffer ts).dirs ≠ [])
    (hrd : runDispatches env cancel iter maxIters count nextId 0 (scanBuffer ts).dirs =
      DispatchPhaseEnd.ok ms newCount) :
    runLoopF env cancel maxIters (fuel + 1) t count nextId iter =
      ⟨(runLoopF env cancel maxIters fuel (t ++ mkAsst ts :: ms) newCount
          (nextId + ms.length) (iter + 1)).outcome,
        mkAsst ts :: (ms ++ (runLoopF env cancel maxIters fuel (t ++ mkAsst ts :: ms) newCount
          (nextId + ms.length) (iter + 1)).appended),
        (scanBuffer ts).prose ++ (runLoopF env cancel maxIters fuel (t ++ mkAsst ts :: ms)
          newCount (nextId + ms.length) (iter + 1)).surfaced,
        1 + (runLoopF env cancel maxIters fuel (t ++ mkAsst ts :: ms) newCount
          (nextId + ms.length) (iter + 1)).modelCalls,
        ms.length + (runLoopF env cancel maxIters fuel (t ++ mkAsst ts :: ms) newCount
          (nextId + ms.length) (iter + 1)).dispatches,
        t :: (runLoopF env cancel maxIters fuel (t ++ mkAsst ts :: ms) newCount
          (nextId + ms.length) (iter + 1)).requests⟩ := by
  simp only [runLoopF, hc, hm, hu, Bool.false_eq_true, if_false, dirs_isEmpty_false hd, hrd]

/-! ## Engine invariants -/

theorem runLoopF_dispatches_le (env : EngineEnv) (cancel : CancelSig) (maxIters : Nat) :
    ∀ (fuel : Nat) (t : List ChatMessage) (count nextId iter : Nat),
    (runLoopF env cancel maxIters fuel t count nextId iter).dispatches ≤ maxIters - count := by
  intro fuel
  induction fuel with
  | zero => intro t count nextId iter; simp [runLoopF]
  | succ fuel ih =>
      intro t count nextId iter
      cases hc : cancelsModel cancel iter with
      | some n =>
          rw [runLoopF_cancelModel env cancel maxIters fuel t count nextId iter n hc]
          simp
      | none =>
          cases hm : env.model t with
          | interrupted ts =>
              rw [runLoopF_interrupted env cancel maxIters fuel t count nextId iter ts hc hm]
              simp
          | stream ts =>
              cases hu : (scanBuffer ts).unclosed with
              | true =>
                  rw [runLoopF_malformed env cancel maxIters fuel t count nextId iter ts hc hm hu]
                  simp
              | false =>
                  by_cases hd : (scanBuffer ts).dirs = []
                  · rw [runLoopF_plain env cancel maxIters fuel t count nextId iter ts hc hm hu hd]
                    simp
                  · cases hrd : runDispatches env cancel iter maxIters count nextId 0
                        (scanBuffer ts).dirs with
                    | cancelledAt ms =>
                        rw [runLoopF_dispatch_cancelled env cancel maxIters fuel t count nextId
                          iter ts ms hc hm hu hd hrd]
                        rcases runDispatches_cancelledAt_le env cancel iter maxIters
                            (scanBuffer ts).dirs count nextId 0 ms hrd with h0 | hle
                        · subst h0; simp
                        · simp only []; omega
                    | limitHit ms =>
                        rw [runLoopF_dispatch_limit env cancel maxIters fuel t count nextId
                          iter ts ms hc hm hu hd hrd]
                        rcases runDispatches_limitHit_le env cancel iter maxIters
                            (scanBuffer ts).dirs count nextId 0 ms hrd with h0 | hle
                        · subst h0; simp
                        · simp only []; omega
                    | ok ms newCount =>
                        rw [runLoopF_dispatch_ok env cancel maxIters fuel t count nextId
                          iter ts ms newCount hc hm hu hd hrd]
                        obtain ⟨h1, h2, h3⟩ := runDispatches_ok_eq env cancel iter maxIters
                          (scanBuffer ts).dirs count nextId 0 ms newCount hrd
                        have hle := h3 hd
                        have hrec := ih (t ++ mkAsst ts :: ms) newCount (nextId + ms.length)
                          (iter + 1)
                        have hms : ms.length = (scanBuffer ts).dirs.length := by
                          rw [h1, answerList_length]
                        simp only []
                        omega

theorem runLoopF_requests_mono (env : EngineEnv) (cancel : CancelSig) (maxIters : Nat) :
    ∀ (fuel : Nat) (t : List ChatMessage) (count nextId iter : Nat),
    (∀ r ∈ (runLoopF env cancel maxIters fuel t count nextId iter).requests,
        t.length ≤ r.length) ∧
    (runLoopF env cancel maxIters fuel t count nextId iter).requests.Pairwise
      (fun a b => a.length < b.length) := by
  intro fuel
  induction fuel with
  | zero => intro t count nextId iter; simp [runLoopF]
  | succ fuel ih =>
      intro t count nextId iter
      cases hc : cancelsModel cancel iter with
      | some n =>
          rw [runLoopF_cancelModel env cancel maxIters fuel t count nextId iter n hc]
          simp
      | none =>
          cases hm : env.model t with
          | interrupted ts =>
              rw [runLoopF_interrupted env cancel maxIters fuel t count nextId iter ts hc hm]
              simp
          | stream ts =>
              cases hu : (scanBuffer ts).unclosed with
              | true =>
                  rw [runLoopF_malformed env cancel maxIters fuel t count nextId iter ts hc hm hu]
                  simp
              | false =>
                  by_cases hd : (scanBuffer ts).dirs = []
                  · rw [runLoopF_plain env cancel maxIters fuel t count nextId iter ts hc hm hu hd]
                    simp
                  · cases hrd : runDispatches env cancel iter maxIters count nextId 0
                        (scanBuffer ts).dirs with
                    | cancelledAt ms =>
                        rw [runLoopF_dispatch_cancelled env cancel maxIters fuel t count nextId
                          iter ts ms hc hm hu hd hrd]
                        simp
                    | limitHit ms =>
                        rw [runLoopF_dispatch_limit env cancel maxIters fuel t count nextId
                          iter ts ms hc hm hu hd hrd]
                        simp
                    | ok ms newCount =>
                        rw [runLoopF_dispatch_ok env cancel maxIters fuel t count nextId
                          iter ts ms newCount hc hm hu hd hrd]
                        obtain ⟨hmem, hpw⟩ := ih (t ++ mkAsst ts :: ms) newCount
                          (nextId + ms.length) (iter + 1)
                        have hgrow : t.length < (t ++ mkAsst ts :: ms).length := by
                          simp
                        constructor
                        · intro r hr
                          simp only [List.mem_cons] at hr
                          rcases hr with h0 | h0
                          · subst h0; exact le_refl _
                          · exact le_of_lt (lt_of_lt_of_le hgrow (hmem r h0))
                        · rw [List.pairwise_cons]
                          exact ⟨fun r h0 => lt_of_lt_of_le hgrow (hmem r h0), hpw⟩

theorem runLoopF_completed_seg (env : EngineEnv) (cancel : CancelSig) (maxIters : Nat) :
    ∀ (fuel : Nat) (t : List ChatMessage) (count nextId iter : Nat),
    (runLoopF env cancel maxIters fuel t count nextId iter).outcome = TurnOutcome.Completed →
    SegStruct env nextId (runLoopF env cancel maxIters fuel t count nextId iter).appended := by
  intro fuel
  induction fuel with
  | zero => intro t count nextId iter h; simp [runLoopF] at h
  | succ fuel ih =>
      intro t count nextId iter h
      cases hc : cancelsModel cancel iter with
      | some n =>
          rw [runLoopF_cancelModel env cancel maxIters fuel t count nextId iter n hc] at h
          simp at h
      | none =>
          cases hm : env.model t with
          | interrupted ts =>
              rw [runLoopF_interrupted env cancel maxIters fuel t count nextId iter ts hc hm] at h
              simp at h
          | stream ts =>
              cases hu : (scanBuffer ts).unclosed with
              | true =>
                  rw [runLoopF_malformed env cancel maxIters fuel t count nextId iter
                    ts hc hm hu] at h
                  simp at h
              | false =>
                  by_cases hd : (scanBuffer ts).dirs = []
                  · rw [runLoopF_plain env cancel maxIters fuel t count nextId iter ts hc hm hu hd]
                    exact SegStruct.last nextId ts hu hd
                  · cases hrd : runDispatches env cancel iter maxIters count nextId 0
                        (scanBuffer ts).dirs with
                    | cancelledAt ms =>
                        rw [runLoopF_dispatch_cancelled env cancel maxIters fuel t count nextId
                          iter ts ms hc hm hu hd hrd] at h
                        simp at h
                    | limitHit ms =>
                        rw [runLoopF_dispatch_limit env cancel maxIters fuel t count nextId
                          iter ts ms hc hm hu hd hrd] at h
                        simp at h
                    | ok ms newCount =>
                        rw [runLoopF_dispatch_ok env cancel maxIters fuel t count nextId
                          iter ts ms newCount hc hm hu hd hrd] at h ⊢
                        simp only [] at h
                        obtain ⟨h1, h2, h3⟩ := runDispatches_ok_eq env cancel iter maxIters
                          (scanBuffer ts).dirs count nextId 0 ms newCount hrd
                        subst h1
                        have hseg := ih
                          (t ++ mkAsst ts :: answerList env nextId (scanBuffer ts).dirs) newCount
                          (nextId + (answerList env nextId (scanBuffer ts).dirs).length)
                          (iter + 1) h
                        exact SegStruct.step nextId ts _ hu hd
                          (by simpa [answerList_length] using hseg)

theorem tcInvariant_toolSkip (rest : List ChatMessage) (ms : List ChatMessage)
    (hms : ∀ m ∈ ms, m.role = Role.tool ∧ msgDirs m = []) :
    ∀ k, tcInvariant k (ms ++ rest) = tcInvariant k rest := by
  induction ms with
  | nil => intro k; rfl
  | cons m ms ih =>
      intro k
      obtain ⟨hrole, hdirs⟩ := hms m (List.mem_cons_self _ _)
      have hms' : ∀ m' ∈ ms, m'.role = Role.tool ∧ msgDirs m' = [] :=
        fun m' hm' => hms m' (List.mem_cons_of_mem _ hm')
      simp [tcInvariant, hrole, hdirs, ih hms' k]

theorem segStruct_tcInvariant (env : EngineEnv) :
    ∀ (n : Nat) (A : List ChatMessage), SegStruct env n A → tcInvariant n A = true := by
  intro n A h
  induction h with
  | last n ts hu hd =>
      simp [tcInvariant, msgDirs, hd]
  | step n ts rest hu hd hrest ih =>
      obtain ⟨p, ps, hpp⟩ := List.exists_cons_of_ne_nil hd
      have hmm : ∀ m ∈ answerList env (n + 1) ps,
          m.role = Role.tool ∧ msgDirs m = [] :=
        fun m hm => answerList_mem_tool env ps (n + 1) m hm
      have hmd : msgDirs (⟨Role.assistant, ts, none, none⟩ : ChatMessage) =
          (scanBuffer ts).dirs := rfl
      simp only [tcInvariant, hmd, hpp, answerList, List.cons_append]
      simp [answerMsg_role, answerMsg_toolCallId, msgDirs_answerMsg, ← hpp]
      rw [tcInvariant_toolSkip rest (answerList env (n + 1) ps) hmm
        (n + (scanBuffer ts).dirs.length)]
      exact ih

/-! ## Claim theorems -/

/-- Claim C1 (amended): in every turn that ends `Completed`, the message
immediately following an assistant message that contains a directive is the
`tool` message answering it, and its `toolCallId` equals the engine-generated
id of that assistant message's first directive (ids being assigned
monotonically from 0 across the turn).  As stated over *every* transcript the
claim is false: a turn aborted by the iteration limit, cancelled, or ended by
a malformed stream keeps an assistant message whose pending directive has no
answering tool message (see the counterexample). -/
theorem c1_tool_follows_directive (env : EngineEnv) (cancel : CancelSig) (maxIters : Nat)
    (base : List ChatMessage) (u : String)
    (h : (runTurn env cancel maxIters base u).outcome = TurnOutcome.Completed) :
    tcInvariant 0 (runTurn env cancel maxIters base u).appended = true :=
  segStruct_tcInvariant env 0 _
    (runLoopF_completed_seg env cancel maxIters (maxIters + 2) (base ++ [mkUserMsg u]) 0 0 0 h)

/-- Claim C1 witness: a concrete completed turn with one dispatched directive
satisfies the invariant. -/
theorem c1_tool_follows_directive_witness :
    (runTurn envC CancelSig.never 2 [] "hi").outcome = TurnOutcome.Completed ∧
    tcInvariant 0 (runTurn envC CancelSig.never 2 [] "hi").appended = true :=
  ⟨by decide, c1_tool_follows_directive envC CancelSig.never 2 [] "hi" (by decide)⟩

/-- Claim C1 counterexample: with `maxIterations = 0` the engine appends the
assistant message containing a confirmed directive and then the synthetic
limit message — an assistant message, not a `tool` message — so the invariant
as stated over every transcript is false on this reachable transcript. -/
theorem c1_counterexample :
    (runTurn envD CancelSig.never 0 [] "go").appended = [mkAsst dirStream, limitMsg] ∧
    msgDirs (mkAsst dirStream) ≠ [] ∧
    limitMsg.role ≠ Role.tool ∧
    tcInvariant 0 (runTurn envD CancelSig.never 0 [] "go").appended = false := by
  exact ⟨by decide, by decide, by decide, by decide⟩

/-- Claim C4 (amended): in every turn that ends `Completed`, the appended
messages decompose into segments: each assistant message containing `N > 0`
complete directives is immediately followed by exactly `N` tool messages
answering those directives in the order their close markers appeared, with
consecutive engine-generated ids — no confirmed directive reordered, dropped,
or dispatched more than once.  As stated over *every* assistant message the
claim is false: a directive pending when the turn is cancelled or when the
iteration limit aborts the turn produces no tool message (see the
counterexample). -/
theorem c4_directives_answered_in_order (env : EngineEnv) (cancel : CancelSig)
    (maxIters : Nat) (base : List ChatMessage) (u : String)
    (h : (runTurn env cancel maxIters base u).outcome = TurnOutcome.Completed) :
    SegStruct env 0 (runTurn env cancel maxIters base u).appended :=
  runLoopF_completed_seg env cancel maxIters (maxIters + 2) (base ++ [mkUserMsg u]) 0 0 0 h

/-- Claim C4 witness: the segment structure of a concrete completed turn. -/
theorem c4_directives_answered_in_order_witness :
    (runTurn envC CancelSig.never 2 [] "yo").outcome = TurnOutcome.Completed ∧
    SegStruct envC 0 (runTurn envC CancelSig.never 2 [] "yo").appended :=
  ⟨by decide, c4_directives_answered_in_order envC CancelSig.never 2 [] "yo" (by decide)⟩

/-- Claim C4 counterexample: Scenario E itself refutes the unrestricted claim:
cancellation during the first tool call leaves an assistant message with one
complete directive followed by zero tool messages. -/
theorem c4_counterexample :
    (runTurn envD (CancelSig.duringTool 0 0) 8 [] "go").appended = [mkAsst dirStream] ∧
    (msgDirs (mkAsst dirStream)).length = 1 ∧
    dirCountsMatch (runTurn envD (CancelSig.duringTool 0 0) 8 [] "go").appended = false := by
  exact ⟨by decide, by decide, by decide⟩

/-- Claim C2: a model stream that fails with a transport error — in any state
of the loop — surfaces the turn-level `StreamInterrupted` outcome to the
caller (retaining the already-surfaced partial prose, appending nothing) and
opens no further model request for it; and, across any whole turn, no model
request is ever issued twice (every resubmission carries a strictly longer
transcript), so the failed user message is never auto-retried — retry is only
possible as an explicit new submission by the caller. -/
theorem c2_stream_interrupted_no_retry :
    (∀ (env : EngineEnv) (cancel : CancelSig) (maxIters fuel : Nat) (t : List ChatMessage)
        (count nextId iter : Nat) (ts : List Tok),
      cancelsModel cancel iter = none → env.model t = ModelResponse.interrupted ts →
      runLoopF env cancel maxIters (fuel + 1) t count nextId iter =
        ⟨TurnOutcome.StreamInterrupted, [], (scanBuffer ts).prose, 1, 0, [t]⟩) ∧
    (∀ (env : EngineEnv) (cancel : CancelSig) (maxIters : Nat) (base : List ChatMessage)
        (u : String),
      (runTurn env cancel maxIters base u).requests.Pairwise (fun a b => a ≠ b)) := by
  constructor
  · exact fun env cancel maxIters fuel t count nextId iter ts hc hm =>
      runLoopF_interrupted env cancel maxIters fuel t count nextId iter ts hc hm
  · intro env cancel maxIters base u
    have h := (runLoopF_requests_mono env cancel maxIters (maxIters + 2)
      (base ++ [mkUserMsg u]) 0 0 0).2
    exact h.imp (fun hlt heq => absurd (heq ▸ hlt) (lt_irrefl _))

/-- Claim C2 witness: a concrete environment whose first model request fails
in transport. -/
theorem c2_stream_interrupted_no_retry_witness :
    runLoopF envI CancelSig.never 3 (3 + 1) [mkUserMsg "hi"] 0 0 0 =
      ⟨TurnOutcome.StreamInterrupted, [], (scanBuffer (strToks "oops")).prose, 1, 0,
        [[mkUserMsg "hi"]]⟩ ∧
    (runTurn envI CancelSig.never 3 [] "hi").requests.Pairwise (fun a b => a ≠ b) :=
  ⟨c2_stream_interrupted_no_retry.1 envI CancelSig.never 3 3 [mkUserMsg "hi"] 0 0 0
      (strToks "oops") rfl rfl,
   c2_stream_interrupted_no_retry.2 envI CancelSig.never 3 [] "hi"⟩

/-- Claim C3: a turn never dispatches more than `maxIterations` tool calls
(for every environment, cancellation schedule, bound and transcript); and in
the concrete Scenario D — the assistant emitting a directive on 9 consecutive
iterations with `maxIterations = 8` — exactly 8 dispatches occur and no 9th,
the 9th model response is not followed by a further resubmission (exactly 9
model requests are opened), a synthetic assistant message explaining the
limit is the last appended message, and the turn ends in the terminal state
`IterationLimitExceeded`. -/
theorem c3_iteration_limit :
    (∀ (env : EngineEnv) (cancel : CancelSig) (maxIters : Nat) (base : List ChatMessage)
        (u : String), (runTurn env cancel maxIters base u).dispatches ≤ maxIters) ∧
    (runTurn envD CancelSig.never 8 [] "go").dispatches = 8 ∧
    (runTurn envD CancelSig.never 8 [] "go").outcome = TurnOutcome.IterationLimitExceeded ∧
    (runTurn envD CancelSig.never 8 [] "go").modelCalls = 9 ∧
    (runTurn envD CancelSig.never 8 [] "go").requests.length = 9 ∧
    (runTurn envD CancelSig.never 8 [] "go").appended.getLast? = some limitMsg := by
  refine ⟨fun env cancel maxIters base u => ?_, by decide, by decide, by decide, by decide,
    by decide⟩
  have h := runLoopF_dispatches_le env cancel maxIters (maxIters + 2)
    (base ++ [mkUserMsg u]) 0 0 0
  simpa [runTurn] using h

/-- Claim C5: a buffer that ends (stream end) while an opened directive block
has no matching close marker is reported as `MalformedDirective`: the scanner
flags the buffer, yields no directive for the unclosed span (the directive
list is exactly that of the prefix before the dangling open marker, and the
held-back span is not surfaced as prose either), and the engine ends the turn
with the turn-level `MalformedDirective` outcome while the transcript keeps
the raw text as the appended assistant message. -/
theorem c5_unclosed_malformed (pre tail : List Tok) (env : EngineEnv) (maxIters : Nat)
    (base : List ChatMessage) (u : String)
    (hpre : (scanBuffer pre).unclosed = false)
    (htail : Tok.closeTk ∉ tail) :
    (scanBuffer (pre ++ Tok.openTk :: tail)).unclosed = true ∧
    (scanBuffer (pre ++ Tok.openTk :: tail)).dirs = (scanBuffer pre).dirs ∧
    (scanBuffer (pre ++ Tok.openTk :: tail)).prose = (scanBuffer pre).prose ∧
    (env.model (base ++ [mkUserMsg u]) = ModelResponse.stream (pre ++ Tok.openTk :: tail) →
      runTurn env CancelSig.never maxIters base u =
        ⟨TurnOutcome.MalformedDirective, [mkAsst (pre ++ Tok.openTk :: tail)],
          (scanBuffer pre).prose, 1, 0, [base ++ [mkUserMsg u]]⟩) := by
  have hmid : scanA none (Tok.openTk :: tail) = ⟨[], [], true⟩ := by
    have h1 : scanA none (Tok.openTk :: tail) = scanA (some []) tail := rfl
    rw [h1, scanA_noClose tail [] htail]
  have happ := scanA_append pre none (Tok.openTk :: tail) hpre
  have hfull : scanBuffer (pre ++ Tok.openTk :: tail) =
      ⟨(scanBuffer pre).dirs, (scanBuffer pre).prose, true⟩ := by
    unfold scanBuffer
    rw [happ, hmid]
    simp
  refine ⟨by rw [hfull], by rw [hfull], by rw [hfull], fun hm => ?_⟩
  have hu : (scanBuffer (pre ++ Tok.openTk :: tail)).unclosed = true := by rw [hfull]
  have hstep := runLoopF_malformed env CancelSig.never maxIters (maxIters + 1)
    (base ++ [mkUserMsg u]) 0 0 0 (pre ++ Tok.openTk :: tail) rfl hm hu
  show runLoopF env CancelSig.never maxIters (maxIters + 2) (base ++ [mkUserMsg u]) 0 0 0 = _
  rw [show maxIters + 2 = (maxIters + 1) + 1 from rfl, hstep, hfull]

/-- Claim C5 witness: a concrete unterminated buffer. -/
theorem c5_unclosed_malformed_witness :
    (scanBuffer malformedStream).unclosed = true ∧
    (scanBuffer malformedStream).dirs = [] ∧
    runTurn envM CancelSig.never 4 [] "hi" =
      ⟨TurnOutcome.MalformedDirective, [mkAsst malformedStream],
        (scanBuffer (strToks "a")).prose, 1, 0, [[mkUserMsg "hi"]]⟩ := by
  have h := c5_unclosed_malformed (strToks "a") (strToks "b") envM 4 [] "hi"
    (by decide) (by decide)
  exact ⟨h.1, by decide, h.2.2.2 rfl⟩

/-- Claim C6: cancellation accepted at an in-flight suspension point, in
*every* state of the loop (any transcript, iteration counter and round — not
just the first).  If the signal arrives during the current model request, the
round ends the turn `Cancelled` with nothing further appended and the
already-surfaced partial non-directive text retained for the caller.  If it
arrives during the in-flight tool call for directive `k` of the current
assistant message, the directives before `k` keep their tool messages, no
tool message is appended for the cancelled directive, no further transcript
writes occur (the appended list ends there), and the turn ends `Cancelled`.
Two concrete whole-turn later-round instances are included: cancellation
during the second model request, and during the first tool call of the
second round, each ending `Cancelled` with the completed first round
intact and nothing appended for the cancelled operation. -/
theorem c6_cancellation :
    (∀ (env : EngineEnv) (cancel : CancelSig) (maxIters fuel : Nat)
        (t : List ChatMessage) (count nextId iter n : Nat),
      cancelsModel cancel iter = some n →
      runLoopF env cancel maxIters (fuel + 1) t count nextId iter =
        ⟨TurnOutcome.Cancelled, [],
          (scanBuffer ((respToks (env.model t)).take n)).prose, 1, 0, [t]⟩) ∧
    (∀ (env : EngineEnv) (maxIters fuel : Nat) (t : List ChatMessage)
        (count nextId iter k : Nat) (ts : List Tok),
      env.model t = ModelResponse.stream ts →
      (scanBuffer ts).unclosed = false →
      k < (scanBuffer ts).dirs.length →
      count + k < maxIters →
      runLoopF env (CancelSig.duringTool iter k) maxIters (fuel + 1) t count nextId iter =
        ⟨TurnOutcome.Cancelled,
          mkAsst ts :: answerList env nextId ((scanBuffer ts).dirs.take k),
          (scanBuffer ts).prose, 1, k, [t]⟩) ∧
    (runTurn envD (CancelSig.duringModel 1 2) 8 [] "go").outcome =
      TurnOutcome.Cancelled ∧
    (runTurn envD (CancelSig.duringModel 1 2) 8 [] "go").appended =
      mkAsst dirStream :: answerList envD 0 (scanBuffer dirStream).dirs ∧
    (runTurn envD (CancelSig.duringTool 1 0) 8 [] "go").outcome =
      TurnOutcome.Cancelled ∧
    (runTurn envD (CancelSig.duringTool 1 0) 8 [] "go").appended =
      mkAsst dirStream ::
        (answerList envD 0 (scanBuffer dirStream).dirs ++ [mkAsst dirStream]) ∧
    (runTurn envD (CancelSig.duringTool 1 0) 8 [] "go").dispatches = 1 := by
  refine ⟨?_, ?_, by decide, by decide, by decide, by decide, by decide⟩
  · intro env cancel maxIters fuel t count nextId iter n hc
    exact runLoopF_cancelModel env cancel maxIters fuel t count nextId iter n hc
  · intro env maxIters fuel t count nextId iter k ts hm hu hk hkm
    have hd : (scanBuffer ts).dirs ≠ [] := by
      intro h0
      rw [h0] at hk
      simp at hk
    have hrd := runDispatches_duringTool env iter maxIters k (scanBuffer ts).dirs
      count nextId 0 (Nat.zero_le k) (by simpa using hk) (by omega)
    have hrd' : runDispatches env (CancelSig.duringTool iter k) iter maxIters
        count nextId 0 (scanBuffer ts).dirs =
        DispatchPhaseEnd.cancelledAt
          (answerList env nextId ((scanBuffer ts).dirs.take k)) := by
      simpa using hrd
    have hstep := runLoopF_dispatch_cancelled env (CancelSig.duringTool iter k) maxIters
      fuel t count nextId iter ts
      (answerList env nextId ((scanBuffer ts).dirs.take k)) rfl hm hu hd hrd'
    have hlen : (answerList env nextId ((scanBuffer ts).dirs.take k)).length = k := by
      rw [answerList_length, List.length_take]
      omega
    rw [hstep, hlen]

/-- Claim C6 witness: cancellation arriving during the second-round model
request of a concrete turn, and during the first tool call of the second
round of the same turn, each applied at the loop state the first completed
round produces. -/
theorem c6_cancellation_witness :
    runLoopF envD (CancelSig.duringModel 1 2) 8 (8 + 1)
      [mkUserMsg "go", mkAsst dirStream, answerMsg envD 0 ("ping:q".data)]
      1 1 1 =
      ⟨TurnOutcome.Cancelled, [], (scanBuffer (dirStream.take 2)).prose, 1, 0,
        [[mkUserMsg "go", mkAsst dirStream,
          answerMsg envD 0 ("ping:q".data)]]⟩ ∧
    runLoopF envD (CancelSig.duringTool 1 0) 8 (8 + 1)
      [mkUserMsg "go", mkAsst dirStream, answerMsg envD 0 ("ping:q".data)]
      1 1 1 =
      ⟨TurnOutcome.Cancelled, [mkAsst dirStream], (scanBuffer dirStream).prose, 1, 0,
        [[mkUserMsg "go", mkAsst dirStream,
          answerMsg envD 0 ("ping:q".data)]]⟩ :=
  ⟨c6_cancellation.1 envD (CancelSig.duringModel 1 2) 8 8
      [mkUserMsg "go", mkAsst dirStream, answerMsg envD 0 ("ping:q".data)]
      1 1 1 2 rfl,
   c6_cancellation.2.1 envD 8 8
      [mkUserMsg "go", mkAsst dirStream, answerMsg envD 0 ("ping:q".data)]
      1 1 1 0 dirStream rfl (by decide) (by decide) (by decide)⟩

/-- Claim C7: every failing tool dispatch — server marked unreachable
(short-circuited with no outbound call), timeout at the fixed per-call limit,
or server error — returns an error `ToolCallResult` (`ok := false`); and such
a result is fed back into the conversation as data (as a tool message inside
the dispatch answers), the turn is not aborted, and — when the model's next
response is directive-free — the turn still reaches `Completed`. -/
theorem c7_tool_failures_do_not_abort (cat : ToolCatalog)
    (tr : ToolServer → ToolCallDirective → TransportResult) (d : ToolCallDirective)
    (s : ToolServer) (m : String) (env : EngineEnv) (maxIters : Nat)
    (base : List ChatMessage) (u : String) (ts ts2 : List Tok) :
    (cat.resolve d.name = some s → s.status = ServerStatus.unreachable →
      dispatchDirective cat tr d =
        ⟨⟨d.id, false, "ToolUnreachable: " ++ s.name⟩, false⟩) ∧
    (cat.resolve d.name = some s → s.status = ServerStatus.deployed →
      tr s d = TransportResult.timeout →
      dispatchDirective cat tr d = ⟨⟨d.id, false, "ToolTimeout"⟩, true⟩) ∧
    (cat.resolve d.name = some s → s.status = ServerStatus.deployed →
      tr s d = TransportResult.serverError m →
      dispatchDirective cat tr d = ⟨⟨d.id, false, "ToolServerError: " ++ m⟩, true⟩) ∧
    (env.model (base ++ [mkUserMsg u]) = ModelResponse.stream ts →
      (scanBuffer ts).unclosed = false →
      (scanBuffer ts).dirs ≠ [] →
      (scanBuffer ts).dirs.length ≤ maxIters →
      env.model ((base ++ [mkUserMsg u]) ++
        mkAsst ts :: answerList env 0 (scanBuffer ts).dirs) = ModelResponse.stream ts2 →
      (scanBuffer ts2).unclosed = false →
      (scanBuffer ts2).dirs = [] →
      (runTurn env CancelSig.never maxIters base u).outcome = TurnOutcome.Completed ∧
      (runTurn env CancelSig.never maxIters base u).appended =
        mkAsst ts :: (answerList env 0 (scanBuffer ts).dirs ++ [mkAsst ts2])) := by
  refine ⟨?_, ?_, ?_, ?_⟩
  · intro hres hstat
    simp [dispatchDirective, hres, hstat]
  · intro hres hstat htr
    simp [dispatchDirective, hres, hstat, htr]
  · intro hres hstat htr
    simp [dispatchDirective, hres, hstat, htr]
  · intro hm1 hu1 hd1 hlen hm2 hu2 hd2
    have hrd := runDispatches_never_ok env 0 maxIters (scanBuffer ts).dirs 0 0 0
      (by simpa using hlen)
    have hstep1 := runLoopF_dispatch_ok env CancelSig.never maxIters (maxIters + 1)
      (base ++ [mkUserMsg u]) 0 0 0 ts (answerList env 0 (scanBuffer ts).dirs)
      (0 + (scanBuffer ts).dirs.length) rfl hm1 hu1 hd1 hrd
    have hstep2 := runLoopF_plain env CancelSig.never maxIters maxIters
      ((base ++ [mkUserMsg u]) ++ mkAsst ts :: answerList env 0 (scanBuffer ts).dirs)
      (0 + (scanBuffer ts).dirs.length)
      (0 + (answerList env 0 (scanBuffer ts).dirs).length) 1 ts2 rfl hm2 hu2 hd2
    have hfin : runTurn env CancelSig.never maxIters base u =
        ⟨TurnOutcome.Completed,
          mkAsst ts :: (answerList env 0 (scanBuffer ts).dirs ++ [mkAsst ts2]),
          (scanBuffer ts).prose ++ (scanBuffer ts2).prose, 1 + 1,
          (answerList env 0 (scanBuffer ts).dirs).length + 0,
          (base ++ [mkUserMsg u]) ::
            [(base ++ [mkUserMsg u]) ++ mkAsst ts :: answerList env 0 (scanBuffer ts).dirs]⟩ := by
      show runLoopF env CancelSig.never maxIters (maxIters + 2)
        (base ++ [mkUserMsg u]) 0 0 0 = _
      rw [show maxIters + 2 = (maxIters + 1) + 1 from rfl, hstep1, hstep2]
    exact ⟨by rw [hfin], by rw [hfin]⟩

/-- Claim C7 witness: the three failure classes at concrete inputs, and a
concrete turn whose only tool call times out yet ends `Completed` with the
error result injected as a tool message. -/
theorem c7_tool_failures_do_not_abort_witness :
    dispatchDirective downCatalog (fun _ _ => TransportResult.success "y") ⟨0, "ping", "q"⟩ =
      ⟨⟨0, false, "ToolUnreachable: downsrv"⟩, false⟩ ∧
    dispatchDirective pingCatalog (fun _ _ => TransportResult.timeout) ⟨0, "ping", "q"⟩ =
      ⟨⟨0, false, "ToolTimeout"⟩, true⟩ ∧
    dispatchDirective pingCatalog (fun _ _ => TransportResult.serverError "boom")
      ⟨0, "ping", "q"⟩ =
      ⟨⟨0, false, "ToolServerError: boom"⟩, true⟩ ∧
    (runTurn envT CancelSig.never 2 [] "hi").outcome = TurnOutcome.Completed ∧
    (runTurn envT CancelSig.never 2 [] "hi").appended =
      mkAsst dirStream ::
        (answerList envT 0 (scanBuffer dirStream).dirs ++ [mkAsst plainStream]) := by
  have ha := (c7_tool_failures_do_not_abort downCatalog
    (fun _ _ => TransportResult.success "y") ⟨0, "ping", "q"⟩ downServer "boom"
    envT 2 [] "hi" dirStream plainStream).1 (by decide) rfl
  have hb := (c7_tool_failures_do_not_abort pingCatalog
    (fun _ _ => TransportResult.timeout) ⟨0, "ping", "q"⟩ pingServer "boom"
    envT 2 [] "hi" dirStream plainStream).2.1 (by decide) rfl rfl
  have hc := (c7_tool_failures_do_not_abort pingCatalog
    (fun _ _ => TransportResult.serverError "boom") ⟨0, "ping", "q"⟩ pingServer "boom"
    envT 2 [] "hi" dirStream plainStream).2.2.1 (by decide) rfl rfl
  have hd := (c7_tool_failures_do_not_abort pingCatalog
    (fun _ _ => TransportResult.timeout) ⟨0, "ping", "q"⟩ pingServer "boom"
    envT 2 [] "hi" dirStream plainStream).2.2.2 (by decide) (by decide) (by decide)
    (by decide) (by decide) (by decide) (by decide)
  exact ⟨ha, hb, hc, hd.1, hd.2⟩

/-- Claim C8: a directive whose name resolves to no capability in the current
catalog snapshot yields `ToolCallResult` with `ok := false` and a
`ToolNotFound` message, and no network call is made. -/
theorem c8_tool_not_found (cat : ToolCatalog)
    (tr : ToolServer → ToolCallDirective → TransportResult) (d : ToolCallDirective)
    (h : cat.resolve d.name = none) :
    dispatchDirective cat tr d = ⟨⟨d.id, false, "ToolNotFound: " ++ d.name⟩, false⟩ := by
  simp [dispatchDirective, h]

/-- Claim C8 witness: resolving a name no capability carries. -/
theorem c8_tool_not_found_witness :
    dispatchDirective pingCatalog (fun _ _ => TransportResult.success "y")
      ⟨3, "nosuch", "a"⟩ = ⟨⟨3, false, "ToolNotFound: nosuch"⟩, false⟩ :=
  c8_tool_not_found pingCatalog (fun _ _ => TransportResult.success "y")
    ⟨3, "nosuch", "a"⟩ (by decide)

/-- Claim C9: with zero enabled capabilities the PromptComposer returns the
base prompt byte-for-byte unchanged — the protocol instruction block and the
capability list are omitted entirely. -/
theorem c9_prompt_unchanged_without_tools (base : String) :
    composePrompt base [] = base := rfl

/-- Claim C10: every tool offered for enabling (hence every server that can
enter the enabled set used for prompt construction and dispatch) comes from
the discovery response with status exactly `DEPLOYED`; servers with any other
status are never shown or enabled; and a remembered selection whose server is
not discovered as deployed is silently skipped: it never appears among the
pre-selected servers (and the pre-selection is a total function — nothing is
reported). -/
theorem c10_only_deployed_enabled (resp : List ToolServerInfo) (remembered : List Nat)
    (choice : ToolServerInfo → Bool) :
    (∀ s ∈ offeredServers resp, s.status = "DEPLOYED") ∧
    (∀ s ∈ enabledServers choice resp, s.status = "DEPLOYED") ∧
    (∀ s ∈ preselectedServers remembered resp,
      s.status = "DEPLOYED" ∧ s.deploymentId ∈ remembered ∧ s ∈ offeredServers resp) ∧
    (∀ idv ∈ remembered,
      idv ∉ (offeredServers resp).map (fun s => s.deploymentId) →
      idv ∉ (preselectedServers remembered resp).map (fun s => s.deploymentId)) := by
  refine ⟨?_, ?_, ?_, ?_⟩
  · intro s hs
    simp only [offeredServers, List.mem_filter, decide_eq_true_eq] at hs
    exact hs.2
  · intro s hs
    simp only [enabledServers, offeredServers, List.mem_filter, decide_eq_true_eq] at hs
    exact hs.1.2
  · intro s hs
    simp only [preselectedServers, List.mem_filter, decide_eq_true_eq] at hs
    obtain ⟨hoff, hmem⟩ := hs
    have hstat : s.status = "DEPLOYED" := by
      simp only [offeredServers, List.mem_filter, decide_eq_true_eq] at hoff
      exact hoff.2
    exact ⟨hstat, hmem, hoff⟩
  · intro idv hr hno hmem
    apply hno
    simp only [List.mem_map] at hmem ⊢
    obtain ⟨s, hs, heq⟩ := hmem
    simp only [preselectedServers, List.mem_filter] at hs
    exact ⟨s, hs.1, heq⟩

/-- Claim C10 witness: a concrete discovery response with one deployed and
one stopped server, and a remembered id whose server is not deployed. -/
theorem c10_only_deployed_enabled_witness :
    (∀ s ∈ offeredServers discResp, s.status = "DEPLOYED") ∧
    srvBad ∉ offeredServers discResp ∧
    (2 : Nat) ∈ [2, 1] ∧
    (2 : Nat) ∉ (preselectedServers [2, 1] discResp).map (fun s => s.deploymentId) := by
  have h := c10_only_deployed_enabled discResp [2, 1] (fun _ => true)
  exact ⟨h.1, by decide, by decide, h.2.2.2 2 (by decide) (by decide)⟩

end ConvEngine
